import Mathlib

/-!
Verification development for the `pycellid` table-merging pipeline
(`pycellid/io.py`): position extraction from file paths, unique-cell-id
synthesis, channel decoding from metadata, the pivot/merge reshaper and
the merge orchestrator.

Pandas dataframes are embedded as a list of column names together with a
list of rows (lists of cell values).  Python exceptions are embedded as
an explicit error type carried by `Except`.  The two compiled regular
expressions (`POSITION_REX`, `CHANNEL_REX`) are embedded by direct
matchers whose search order follows Python's leftmost, greedy,
backtracking semantics; comments at each matcher record why the greedy
choice is the only one that can succeed, so the straight-line code below
computes exactly the first match Python's engine reports.
-/

set_option maxHeartbeats 1000000

/-- A pandas cell value: an integer, a string, or NaN (missing). -/
inductive Val where
  | int (n : Int)
  | str (s : String)
  | na
deriving DecidableEq, Repr

/-- Python exceptions raised by `pycellid/io.py`, by class.  `KeyError`
carries a rendering of the missing key. -/
inductive PyErr where
  | keyError (k : String)
  | indexError
  | valueError (msg : String)
  | fileNotFoundError (msg : String)
  | fileExistsError (msg : String)
  | stopIteration
  | typeError
deriving DecidableEq, Repr

/-- A pandas `DataFrame`: column names plus rows; each row lists the cell
values in column order. -/
structure DF where
  cols : List String
  rows : List (List Val)
deriving DecidableEq, Repr

/-- Equality of `Except` results is decidable componentwise, so concrete
evaluations of the embedded functions can be checked by computation. -/
def exceptDecEq {ε α : Type} [DecidableEq ε] [DecidableEq α] :
    (a b : Except ε α) → Decidable (a = b)
  | Except.ok x, Except.ok y =>
    if h : x = y then isTrue (by rw [h])
    else isFalse (fun hc => h (Except.ok.inj hc))
  | Except.error x, Except.error y =>
    if h : x = y then isTrue (by rw [h])
    else isFalse (fun hc => h (Except.error.inj hc))
  | Except.ok _, Except.error _ => isFalse (fun hc => Except.noConfusion hc)
  | Except.error _, Except.ok _ => isFalse (fun hc => Except.noConfusion hc)

instance {ε α : Type} [DecidableEq ε] [DecidableEq α] : DecidableEq (Except ε α) :=
  exceptDecEq

/-- Left-to-right effectful map over a list in the `Except` monad; stops at
the first error, like a Python comprehension. -/
def exMap {α β ε : Type} (f : α → Except ε β) : List α → Except ε (List β)
  | [] => Except.ok []
  | x :: xs => do
    let y ← f x
    let ys ← exMap f xs
    Except.ok (y :: ys)

/-- Distinct elements in order of first appearance (`pandas.Series.unique`),
with an accumulator of values already seen. -/
def dedupFirstAux {α : Type} [DecidableEq α] : List α → List α → List α
  | [], _ => []
  | x :: xs, seen =>
    if x ∈ seen then dedupFirstAux xs seen
    else x :: dedupFirstAux xs (x :: seen)

/-- Distinct elements in order of first appearance. -/
def dedupFirst {α : Type} [DecidableEq α] (l : List α) : List α :=
  dedupFirstAux l []

/-! ## Position Codec: `POSITION_REX`

`POS = r"[p|P][a-zA-Z]*[-|_]*"` and
`SC_NOTATION = r"-?[\d.]+(?:e-?\d+)+(?:[+]-?\d+)?"`, compiled as
`POSITION_REX = re.compile(fr"{POS}({SC_NOTATION}|\d+)")`; `make_df` uses
the first element of `POSITION_REX.findall(path)`, i.e. the capture group
of the leftmost match. -/

/-- Characters accepted by the class `[\d.]`. -/
def isDigitDot (c : Char) : Bool := c.isDigit || c = '.'

/-- One repetition `e-?\d+` of the exponent group, returning the consumed
characters and the rest.  The optional `-?` is greedy; if no digits follow
the sign position the repetition fails either way, because `\d+` cannot
start at `-`. -/
def expOne : List Char → Option (List Char × List Char)
  | 'e' :: '-' :: r =>
    if (r.takeWhile Char.isDigit).isEmpty then none
    else some ('e' :: '-' :: r.takeWhile Char.isDigit,
      r.drop (r.takeWhile Char.isDigit).length)
  | 'e' :: r =>
    if (r.takeWhile Char.isDigit).isEmpty then none
    else some ('e' :: r.takeWhile Char.isDigit,
      r.drop (r.takeWhile Char.isDigit).length)
  | _ => none

/-- Greedy `(?:e-?\d+)+`: as many repetitions as possible, at least one.
Each inner `\d+` is maximal: whatever follows the group in the pattern is
optional or a fresh `e` repetition, never a digit, so giving digits back
can never turn a failure into a success.  The fuel is the suffix length,
an upper bound on the number of repetitions. -/
def expReps : Nat → List Char → Option (List Char × List Char)
  | 0, _ => none
  | fuel + 1, cs =>
    match expOne cs with
    | none => none
    | some (c1, rest) =>
      match expReps fuel rest with
      | some (c2, rest2) => some (c1 ++ c2, rest2)
      | none => some (c1, rest)

/-- The optional offset tail `(?:[+]-?\d+)?` when present: `+`, optional
`-`, then maximal digits (nothing follows in the pattern). -/
def plusTail : List Char → Option (List Char × List Char)
  | '+' :: '-' :: r =>
    if (r.takeWhile Char.isDigit).isEmpty then none
    else some ('+' :: '-' :: r.takeWhile Char.isDigit,
      r.drop (r.takeWhile Char.isDigit).length)
  | '+' :: r =>
    if (r.takeWhile Char.isDigit).isEmpty then none
    else some ('+' :: r.takeWhile Char.isDigit,
      r.drop (r.takeWhile Char.isDigit).length)
  | _ => none

/-- `SC_NOTATION` at the start of `cs`, returning the matched literal.
The run `[\d.]+` must be maximal: for any shorter split the next character
is still a digit or dot, never the `e` the mandatory exponent group needs,
so the greedy choice is the only candidate. -/
def scBody (sgn cs : List Char) : Option (List Char) :=
  if (cs.takeWhile isDigitDot).isEmpty then none
  else
    match expReps cs.length (cs.drop (cs.takeWhile isDigitDot).length) with
    | none => none
    | some (ec, rest) =>
      match plusTail rest with
      | some (tc, _) => some (sgn ++ cs.takeWhile isDigitDot ++ ec ++ tc)
      | none => some (sgn ++ cs.takeWhile isDigitDot ++ ec)

/-- `SC_NOTATION` at the start of the list: greedy `-?`, then the body. -/
def scMatch : List Char → Option (List Char)
  | '-' :: r => scBody ['-'] r
  | cs => scBody [] cs

/-- The capture group `({SC_NOTATION}|\d+)` at the start of `cs`: the
scientific-notation alternative is tried first, then a maximal digit
run. -/
def groupMatch (cs : List Char) : Option (List Char) :=
  match scMatch cs with
  | some cap => some cap
  | none =>
    if (cs.takeWhile Char.isDigit).isEmpty then none
    else some (cs.takeWhile Char.isDigit)

/-- The prefix `[p|P][a-zA-Z]*[-|_]*` when it matches at the start of
`cs`, returning the suffix where the capture group starts.  Both stars
are taken maximal because no shorter choice can be rescued by
backtracking: a shorter letter run leaves the group starting at a letter,
and a shorter separator run leaves it starting at `-`, `|` or `_`; the
group's first character must be a digit, a dot, or a `-` followed by a
digit or dot, and a `-` in that position would itself have been eaten
by the greedy separator star, leading to the same continuation. -/
def posPrefixRest (cs : List Char) : Option (List Char) :=
  match cs with
  | c :: rest =>
    if c = 'p' || c = 'P' || c = '|' then
      let r1 := rest.dropWhile Char.isAlpha
      some (r1.dropWhile (fun d => d = '-' || d = '|' || d = '_'))
    else none
  | [] => none

/-- Leftmost match of `POSITION_REX` over the whole string, returning the
capture group: Python's `findall` scans each start position in order. -/
def findPos : List Char → Option (List Char)
  | [] => none
  | c :: cs =>
    match (posPrefixRest (c :: cs)).bind groupMatch with
    | some cap => some cap
    | none => findPos cs

/-- Python `str.split("+")`. -/
def splitPlus : List Char → List (List Char)
  | [] => [[]]
  | c :: cs =>
    if c = '+' then [] :: splitPlus cs
    else
      match splitPlus cs with
      | p :: ps => (c :: p) :: ps
      | [] => [[c]]

/-- Value of a digit string, most significant first. -/
def digitsVal (ds : List Char) : Nat :=
  ds.foldl (fun a c => 10 * a + (c.toNat - '0'.toNat)) 0

/-- Python `float(s)` on the literal grammar reachable here (optional
sign, digits with at most one dot and at least one digit, optional
`e`/`E` exponent with optional sign), returned as the exact decimal value
`(mantissa, fractionDigits, exponent)`, i.e. `mantissa * 10^(exponent -
fractionDigits)`.  `None` is Python's `ValueError`.  This models the
conversion by the exact decimal value; CPython rounds to the nearest
binary double first, which agrees with the exact value on every literal
this program's truncations are applied to. -/
def pyFloatQ (cs : List Char) : Option (Int × Nat × Int) :=
  let sr : Bool × List Char :=
    match cs with
    | '-' :: r => (true, r)
    | '+' :: r => (false, r)
    | _ => (false, cs)
  let ip := sr.2.takeWhile Char.isDigit
  let cs2 := sr.2.drop ip.length
  let fr : List Char × List Char :=
    match cs2 with
    | '.' :: r => (r.takeWhile Char.isDigit, (r.takeWhile Char.isDigit).length |> r.drop)
    | _ => ([], cs2)
  if ip.isEmpty && fr.1.isEmpty then none
  else
    let mant : Int := Int.ofNat (digitsVal (ip ++ fr.1))
    let mant := if sr.1 then -mant else mant
    let k := fr.1.length
    match fr.2 with
    | [] => some (mant, k, 0)
    | c :: r =>
      if c = 'e' || c = 'E' then
        let er : Bool × List Char :=
          match r with
          | '-' :: rr => (true, rr)
          | '+' :: rr => (false, rr)
          | _ => (false, r)
        let eds := er.2.takeWhile Char.isDigit
        if eds.isEmpty || !(er.2.drop eds.length).isEmpty then none
        else
          let e : Int := Int.ofNat (digitsVal eds)
          some (mant, k, if er.1 then -e else e)
      else none

/-- Truncation toward zero of `n * 10^t` (Python `int()` applied to a
float). -/
def truncPow10 (n : Int) (t : Int) : Int :=
  if 0 ≤ t then n * (10 : Int) ^ t.toNat
  else
    let d : Nat := 10 ^ (-t).toNat
    if 0 ≤ n then Int.ofNat (n.toNat / d) else -Int.ofNat ((-n).toNat / d)

/-- Python `int(float(s))` for the literals this program feeds to it. -/
def intFloat (cs : List Char) : Except PyErr Int :=
  match pyFloatQ cs with
  | none =>
    Except.error (PyErr.valueError
      ("could not convert string to float: " ++ String.mk cs))
  | some (n, k, e) => Except.ok (truncPow10 n (e - Int.ofNat k))

/-- The position-extraction block of `make_df` (lines 193-205): the capture
group of the leftmost `POSITION_REX` match; `FileNotFoundError` when there
is none; if the literal contains `+`, split there and sum the two
truncations, else truncate the single literal. -/
def extractPos (pathFile : String) : Except PyErr Int :=
  match findPos pathFile.data with
  | none =>
    Except.error (PyErr.fileNotFoundError
      (pathFile ++ " does not encode valid position"))
  | some lit =>
    if '+' ∈ lit then
      match splitPlus lit with
      | [scNum, num] => do
        let a ← intFloat scNum
        let b ← intFloat num
        Except.ok (a + b)
      | _ => Except.error (PyErr.valueError "unpack")
    else intFloat lit

/-! ## `read_df`: header normalization -/

/-- Python `str.strip()`: drop whitespace at both ends. -/
def stripChars (cs : List Char) : List Char :=
  ((cs.dropWhile Char.isWhitespace).reverse.dropWhile Char.isWhitespace).reverse

/-- The header rewrite of `read_df` (lines 70-72):
`str.strip()` followed by `str.replace(".", "_", regex=True)`.  With
`regex=True` the pattern `"."` is a regular expression matching every
character except a newline, so `re.sub` replaces every non-newline
character of the stripped header with `_`. -/
def normalizeHeader (s : String) : String :=
  String.mk ((stripChars s.data).map (fun c => if c = '\n' then c else '_'))

/-- `read_df` minus the file I/O: the raw table as parsed by
`pd.read_table`, with the header rewrite applied. -/
def readDf (raw : DF) : DF :=
  { cols := raw.cols.map normalizeHeader, rows := raw.rows }

/-! ## DataFrame primitives -/

/-- Column access `df[c]` returning the column's values; `KeyError` when
the column does not exist. -/
def getCol (df : DF) (c : String) : Except PyErr (List Val) :=
  match df.cols.findIdx? (fun c' => c' == c) with
  | some i => Except.ok (df.rows.map (fun r => r.getD i Val.na))
  | none => Except.error (PyErr.keyError c)

/-- The value of row `r` of `df` in column `c` (`Val.na` when absent);
used only where the column's presence was already checked. -/
def rowCell (df : DF) (r : List Val) (c : String) : Val :=
  match df.cols.findIdx? (fun c' => c' == c) with
  | some i => r.getD i Val.na
  | none => Val.na

/-- Column assignment `df[c] = vs`: overwrite in place, or append a new
column on the right (pandas semantics). -/
def setCol (df : DF) (c : String) (vs : List Val) : DF :=
  match df.cols.findIdx? (fun c' => c' == c) with
  | some i => ⟨df.cols, (df.rows.zip vs).map (fun rv => rv.1.set i rv.2)⟩
  | none => ⟨df.cols ++ [c], (df.rows.zip vs).map (fun rv => rv.1 ++ [rv.2])⟩

/-! ## `_create_ucid` and `make_df` -/

/-- Round a natural number to 53 significant bits, ties to even: the value
of the nearest IEEE double. -/
def rnd53 (n : Nat) : Nat :=
  if n < 2 ^ 53 then n
  else
    let k := n.log2 - 52
    let q := n / 2 ^ k
    let r := n % 2 ^ k
    let q' :=
      if 2 * r < 2 ^ k then q
      else if 2 * r > 2 ^ k then q + 1
      else if q % 2 = 0 then q else q + 1
    q' * 2 ^ k

/-- `calc = int(pos * 1e11)` (line 96).  `1e11` is an exact double and
every position produced by the codec is exactly representable, so the
computation is one round-to-nearest of `pos * 10^11` followed by an exact
truncation of the resulting integral double. -/
def pyTrunc1e11 (pos : Int) : Int :=
  if 0 ≤ pos then Int.ofNat (rnd53 (pos.toNat * 10 ^ 11))
  else -Int.ofNat (rnd53 ((-pos).toNat * 10 ^ 11))

/-- Python truthiness of a cell value: empty string and zero are falsy;
NaN is truthy. -/
def pyFalsy : Val → Bool
  | Val.str s => s.isEmpty
  | Val.int n => n == 0
  | Val.na => false

/-- `_create_ucid` (lines 76-98): `df["ucid"] = [calc + cellid for cellid
in df["cellID"]]`.  Adding an `int` to a non-numeric cell raises
`TypeError` in Python. -/
def createUcid (df : DF) (pos : Int) : Except PyErr DF := do
  let cellids ← getCol df "cellID"
  let vals ← exMap
    (fun v =>
      match v with
      | Val.int c => Except.ok (Val.int (pyTrunc1e11 pos + c))
      | _ => Except.error PyErr.typeError)
    cellids
  Except.ok (setCol df "ucid" vals)

/-- `df["pos"] = np.linspace(pos, pos, len(df), dtype=int)` (line 208): a
constant integer column.  `linspace` on equal integer endpoints followed
by an integer cast reproduces the position exactly for every position
the codec can output. -/
def addPosCol (df : DF) (pos : Int) : DF :=
  setCol df "pos" (df.rows.map (fun _ => Val.int pos))

/-- `make_df` (lines 176-210) minus file I/O: `read_df`, position
extraction, `_create_ucid`, constant `pos` column. -/
def makeDf (raw : DF) (pathFile : String) : Except PyErr DF := do
  let df := readDf raw
  let pos ← extractPos pathFile
  let df2 ← createUcid df pos
  Except.ok (addPosCol df2 pos)

/-! ## Channel Decoder: `CHANNEL_REX`

`CHANNEL_REX = re.compile(r"([\w][f|F][\w]{,1})([_|\D][p|P][\D]*)")`;
`_decod_chanel` uses `CHANNEL_REX.findall(path)[0][0].lower()`, i.e. the
first capture group of the leftmost match. -/

/-- The class `[\w]` (ASCII range of the inputs reaching it). -/
def isWordChar (c : Char) : Bool := c.isAlphanum || c = '_'

/-- Group 1 of a `CHANNEL_REX` match starting at the head of `cs`, if
any.  `[\w]{,1}` is greedy: the one-character alternative is tried before
the empty one.  `[_|\D]` equals the non-digit class (`_` and `|` are not
digits), and the trailing `[\D]*` always matches, so a match needs only
a non-digit followed by `p`, `P` or `|` after group 1. -/
def chanAt (cs : List Char) : Option String :=
  match cs with
  | c1 :: c2 :: rest =>
    if isWordChar c1 && (c2 = 'f' || c2 = 'F' || c2 = '|') then
      match rest with
      | c3 :: a :: b :: _ =>
        if isWordChar c3 && !a.isDigit && (b = 'p' || b = 'P' || b = '|') then
          some (String.mk [c1, c2, c3])
        else if !c3.isDigit && (a = 'p' || a = 'P' || a = '|') then
          some (String.mk [c1, c2])
        else none
      | [c3, a] =>
        if !c3.isDigit && (a = 'p' || a = 'P' || a = '|') then
          some (String.mk [c1, c2])
        else none
      | _ => none
    else none
  | _ => none

/-- Leftmost `CHANNEL_REX` match over the whole string (Python `findall`
scans every start position in order), returning group 1. -/
def chanScan : List Char → Option String
  | [] => none
  | c :: cs =>
    match chanAt (c :: cs) with
    | some g => some g
    | none => chanScan cs

/-- Python `str.lower()` on the ASCII tokens that reach it. -/
def lowerChar (c : Char) : Char :=
  if 'A' ≤ c && c ≤ 'Z' then Char.ofNat (c.toNat + 32) else c

/-- Python `str.lower()` on the ASCII tokens that reach it. -/
def lowerStr (s : String) : String := String.mk (s.data.map lowerChar)

/-- Rendering of a cell value inside an error message. -/
def valRepr : Val → String
  | Val.int n => toString n
  | Val.str s => s
  | Val.na => "nan"

/-- Rendering of a dataframe inside an error message; stands in for
pandas' textual repr and carries the full table. -/
def dfRepr (df : DF) : String :=
  String.intercalate " " df.cols ++ " | "
    ++ String.intercalate " ; " (df.rows.map (fun r => String.intercalate " " (r.map valRepr)))

/-- The `ValueError` message of `_decod_chanel` (line 123), naming the
flag and the mapping table. -/
def notEncodedMsg (fg : Val) (m : DF) : String :=
  valRepr fg ++ " is not encoding in " ++ dfRepr m

/-- `_decod_chanel` (lines 101-125): take the `fluor` value of the first
row whose `flag` equals `fg` (`IndexError` when no row matches), raise
`ValueError` when it is falsy, else return the lowercased first capture
group of `CHANNEL_REX.findall` (`IndexError` when there is no match;
`TypeError` when the value is not a string). -/
def decodChanel (m : DF) (fg : Val) : Except PyErr String := do
  let fl ← getCol m "flag"
  let fluors ← getCol m "fluor"
  match ((fl.zip fluors).filter (fun p => p.1 == fg)).map (fun p => p.2) with
  | [] => Except.error PyErr.indexError
  | v :: _ =>
    if pyFalsy v then Except.error (PyErr.valueError (notEncodedMsg fg m))
    else
      match v with
      | Val.str s =>
        match chanScan s.data with
        | none => Except.error PyErr.indexError
        | some g => Except.ok (lowerStr g)
      | _ => Except.error PyErr.typeError

/-- The descriptor `_decod_chanel` would read for `fg`: the `fluor` value
of the first row whose `flag` equals `fg`. -/
def firstFluorFor (m : DF) (fg : Val) : Option Val :=
  match getCol m "flag", getCol m "fluor" with
  | Except.ok fl, Except.ok fluors =>
    (((fl.zip fluors).filter (fun p => p.1 == fg)).map (fun p => p.2)).head?
  | _, _ => none

/-! ## Table Reshaper: `_make_cols_chan` -/

/-- Python `name.startswith("f_")` on a column name. -/
def startsF (c : String) : Bool :=
  match c.data with
  | 'f' :: '_' :: _ => true
  | _ => false

/-- The fluorescence columns of `df`: names starting with `f_`
(line 149). -/
def fluorCols (df : DF) : List String :=
  df.cols.filter (fun c => startsF c)

/-- The result of `df.pivot(index=["ucid", "t_frame"], columns="flag",
values=fluor)`: the distinct index keys, the (value-name, flag) column
labels, and the grid of values. -/
structure PivotDF where
  keys : List (Val × Val)
  colLabels : List (String × Val)
  grid : List (List Val)
deriving DecidableEq, Repr

/-- The pivoted value at index key `(u, t)`, flag `fg`, value column
`fn`: the value of the unique matching row, `NaN` when none exists. -/
def pivotCell (df : DF) (u t fg : Val) (fn : String) : Val :=
  match df.rows.find? (fun r =>
      rowCell df r "ucid" == u && rowCell df r "t_frame" == t
        && rowCell df r "flag" == fg) with
  | some r => rowCell df r fn
  | none => Val.na

/-- `df.pivot(index=["ucid", "t_frame"], columns="flag", values=fluor)`
(line 152).  A missing index or `columns` column raises `KeyError`; a
duplicated (index, flag) combination raises `ValueError`.  The column
labels are the product of the value names with the distinct flags, value
name outermost.  (pandas emits keys and flags in sorted order; the order
of first appearance is used here, and nothing below depends on it.) -/
def pivotFlag (df : DF) (fluor : List String) : Except PyErr PivotDF := do
  let ucids ← getCol df "ucid"
  let tfs ← getCol df "t_frame"
  let fls ← getCol df "flag"
  let triples := (ucids.zip tfs).zip fls
  if triples.Nodup then
    let keys := dedupFirst (ucids.zip tfs)
    let flU := dedupFirst fls
    let colLabels := fluor.flatMap (fun fn => flU.map (fun fg => (fn, fg)))
    let grid := keys.map (fun k =>
      colLabels.map (fun lab => pivotCell df k.1 k.2 lab.2 lab.1))
    Except.ok ⟨keys, colLabels, grid⟩
  else
    Except.error (PyErr.valueError "Index contains duplicate entries, cannot reshape")

/-- The dictionary `{fg: _decod_chanel(df_map, fg) for fg in
df_map["flag"].unique()}` (line 155), built in order with the first
failing flag's error. -/
def buildChanels (m : DF) : Except PyErr (List (Val × String)) := do
  let fl ← getCol m "flag"
  exMap
    (fun fg => do
      let c ← decodChanel m fg
      Except.ok (fg, c))
    (dedupFirst fl)

/-- Python dict lookup over the association list (`chanels[n[1]]`);
keys are distinct here, so first match equals dict semantics. -/
def lookupCh : List (Val × String) → Val → Option String
  | [], _ => none
  | p :: ps, fg => if p.1 == fg then some p.2 else lookupCh ps fg

/-- Steps 4-5 of `_make_cols_chan` (lines 160-168): the morphological
(non-`f_`) columns of the `flag == 0` rows, indexed by (ucid, t_frame)
(the index columns leave the column list), outer-merged with the renamed
pivot table on (ucid, t_frame), then `reset_index`.  Keys are emitted
left-first (pandas sorts them; nothing below depends on row order).
Note that `flag` does not start with `f_`, so it stays among the
morphological columns. -/
def mergedTable (df : DF) (pv : PivotDF) (newNames : List String) : DF :=
  let morf := df.cols.filter (fun c => !startsF c)
  let morfCols := morf.filter (fun c => !(c == "ucid" || c == "t_frame"))
  let morfRows := df.rows.filter (fun r => rowCell df r "flag" == Val.int 0)
  let morfKeys := morfRows.map (fun r => (rowCell df r "ucid", rowCell df r "t_frame"))
  let allKeys := dedupFirst (morfKeys ++ pv.keys)
  let rows := allKeys.map (fun k =>
    let left : List Val :=
      match morfRows.find? (fun r =>
          rowCell df r "ucid" == k.1 && rowCell df r "t_frame" == k.2) with
      | some r => morfCols.map (fun c => rowCell df r c)
      | none => morfCols.map (fun _ => Val.na)
    let right : List Val :=
      match (pv.keys.zip pv.grid).find? (fun kr => kr.1 == k) with
      | some kr => kr.2
      | none => newNames.map (fun _ => Val.na)
    k.1 :: k.2 :: (left ++ right))
  ⟨"ucid" :: "t_frame" :: (morfCols ++ newNames), rows⟩

/-- Step 6 of `_make_cols_chan` (lines 170-172): `df[col]` for
`col = ["pos", "t_frame", "ucid", "cellID"]` (KeyError when one is
missing) concatenated with `df.drop(col, axis=1)`. -/
def reorderFinal (dfm : DF) : Except PyErr DF :=
  let col := ["pos", "t_frame", "ucid", "cellID"]
  match col.find? (fun c => !dfm.cols.contains c) with
  | some c => Except.error (PyErr.keyError c)
  | none =>
    let finalCols := col ++ dfm.cols.filter (fun c => !col.contains c)
    Except.ok ⟨finalCols, dfm.rows.map (fun r => finalCols.map (fun c => rowCell dfm r c))⟩

/-- `_make_cols_chan` (lines 128-173): pivot the fluorescence columns by
flag, decode every flag of the mapping table, rename the pivoted columns
to `<name>_<channel>` (`KeyError` when a data flag is absent from the
dictionary), merge back with the `flag == 0` morphological subset and
put `pos`, `t_frame`, `ucid`, `cellID` first. -/
def makeColsChan (df dfMap : DF) : Except PyErr DF := do
  let pv ← pivotFlag df (fluorCols df)
  let ch ← buildChanels dfMap
  let newNames ← exMap
    (fun lab =>
      match lookupCh ch lab.2 with
      | some s => Except.ok (lab.1 ++ "_" ++ s)
      | none => Except.error (PyErr.keyError (valRepr lab.2)))
    pv.colLabels
  reorderFinal (mergedTable df pv newNames)

/-! ## Merge Orchestrator: `merge_tables` -/

/-- `pd.concat([a, b], ignore_index=True)` (line 261): stack rows over
the union of the columns (first frame's columns first), reindexing each
row and leaving absent values empty. -/
def pdConcat (a b : DF) : DF :=
  let cols := a.cols ++ b.cols.filter (fun c => !a.cols.contains c)
  ⟨cols,
    a.rows.map (fun r => cols.map (fun c => rowCell a r c))
      ++ b.rows.map (fun r => cols.map (fun c => rowCell b r c))⟩

/-- A discovered data file: the raw table `pd.read_table` yields plus the
path it was found under. -/
structure RawFile where
  raw : DF
  path : String
deriving DecidableEq, Repr

/-- `next` on a lazily discovered file sequence, modelled as a list:
an exhausted sequence raises `StopIteration`. -/
def nextF {α : Type} : List α → Except PyErr (α × List α)
  | [] => Except.error PyErr.stopIteration
  | x :: xs => Except.ok (x, xs)

/-- The `for data_table in data_tables` loop of `merge_tables`
(lines 258-261): per file, `make_df`, then `_make_cols_chan` against the
next metadata table, then concatenation onto the accumulator. -/
def mergeLoop : DF → List RawFile → List DF → Except PyErr DF
  | df, [], _ => Except.ok df
  | df, d :: ds, maps => do
    let dfi ← makeDf d.raw d.path
    let mm ← nextF maps
    let dfi2 ← makeColsChan dfi mm.1
    mergeLoop (pdConcat df dfi2) ds mm.2

/-- `merge_tables` (lines 214-265) minus file I/O: the existence check on
the root path is a parameter, and the two `rglob` generators are the two
lists of discovered files in traversal order.  (`vars(df)["_path"]`
bookkeeping is dropped.) -/
def mergeTables (pathExists : Bool) (path : String)
    (dataFiles : List RawFile) (mapFiles : List DF) : Except PyErr DF :=
  if !pathExists then Except.error (PyErr.fileExistsError ("invalid path: " ++ path))
  else do
    let td ← nextF dataFiles
    let df ← makeDf td.1.raw td.1.path
    let mm ← nextF mapFiles
    let df2 ← makeColsChan df mm.1
    mergeLoop df2 td.2 mm.2

/-! ## Concrete input fixtures used by the claim evaluations -/

/-- A two-flag per-file table as `make_df` is meant to produce: one
morphological (`flag = 0`) row and one `flag = 1` fluorescence row for
the same cell and frame. -/
def dfTwoFlags : DF :=
  ⟨["pos", "t_frame", "ucid", "cellID", "flag", "f_tot"],
   [[Val.int 1, Val.int 0, Val.int 100000000001, Val.int 1, Val.int 0, Val.int 10],
    [Val.int 1, Val.int 0, Val.int 100000000001, Val.int 1, Val.int 1, Val.int 20]]⟩

/-- A mapping table whose two descriptors both decode (`bf`, `yfp`). -/
def mapBfYfp : DF :=
  ⟨["flag", "fluor"],
   [[Val.int 0, Val.str "BF_Position"], [Val.int 1, Val.str "yfp_Position"]]⟩

/-- `dfTwoFlags` with an extra row whose flag (2) has no mapping entry. -/
def dfFlagTwo : DF :=
  ⟨["pos", "t_frame", "ucid", "cellID", "flag", "f_tot"],
   [[Val.int 1, Val.int 0, Val.int 100000000001, Val.int 1, Val.int 0, Val.int 10],
    [Val.int 1, Val.int 0, Val.int 100000000001, Val.int 1, Val.int 2, Val.int 20]]⟩

/-- A mapping table with an empty descriptor for flag 3. -/
def mapEmptyFluor : DF := ⟨["flag", "fluor"], [[Val.int 3, Val.str ""]]⟩

/-- The metadata table of the spec's end-to-end scenario: flag 0 is
described by the non-channel string `cellID`. -/
def mapCellID : DF :=
  ⟨["flag", "fluor"],
   [[Val.int 0, Val.str "cellID"], [Val.int 1, Val.str "yfp_Position"]]⟩

/-- A per-file table with no `t_frame` column. -/
def dfNoTFrame : DF :=
  ⟨["pos", "ucid", "cellID", "flag", "f_tot"],
   [[Val.int 1, Val.int 100000000001, Val.int 1, Val.int 0, Val.int 10]]⟩

/-- A raw data table exactly as `pd.read_table` would deliver it, headers
`cellID` and `f_tot`, before `read_df` rewrites the headers. -/
def rawCellID : DF := ⟨["cellID", "f_tot"], [[Val.int 1, Val.int 10]]⟩

/-! ## Helper lemmas -/

@[simp] theorem bindOk {ε α β : Type} (a : α) (f : α → Except ε β) :
    (Except.ok a : Except ε α) >>= f = f a := rfl

@[simp] theorem bindErr {ε α β : Type} (e : ε) (f : α → Except ε β) :
    (Except.error e : Except ε α) >>= f = Except.error e := rfl

theorem mem_dedupFirstAux {α : Type} [DecidableEq α] (x : α) :
    ∀ (l seen : List α), x ∈ dedupFirstAux l seen ↔ x ∈ l ∧ x ∉ seen := by
  intro l
  induction l with
  | nil => simp [dedupFirstAux]
  | cons a as ih =>
    intro seen
    by_cases ha : a ∈ seen
    · rw [dedupFirstAux, if_pos ha, ih]
      constructor
      · rintro ⟨h1, h2⟩
        exact ⟨List.mem_cons_of_mem _ h1, h2⟩
      · rintro ⟨h1, h2⟩
        rcases List.mem_cons.mp h1 with rfl | h1
        · exact absurd ha h2
        · exact ⟨h1, h2⟩
    · rw [dedupFirstAux, if_neg ha]
      constructor
      · intro h
        rcases List.mem_cons.mp h with rfl | h
        · exact ⟨List.mem_cons_self _ _, ha⟩
        · rcases (ih _).mp h with ⟨h1, h2⟩
          refine ⟨List.mem_cons_of_mem _ h1, fun hx => h2 (List.mem_cons_of_mem _ hx)⟩
      · rintro ⟨h1, h2⟩
        rcases List.mem_cons.mp h1 with rfl | h1
        · exact List.mem_cons_self _ _
        · by_cases hxa : x = a
          · subst hxa
            exact List.mem_cons_self _ _
          · refine List.mem_cons_of_mem _ ((ih _).mpr ⟨h1, ?_⟩)
            intro hx
            rcases List.mem_cons.mp hx with h | h
            · exact hxa h
            · exact h2 h

theorem mem_dedupFirst {α : Type} [DecidableEq α] (x : α) (l : List α) :
    x ∈ dedupFirst l ↔ x ∈ l := by
  rw [dedupFirst, mem_dedupFirstAux]
  simp

theorem exMap_ok_mem {α β ε : Type} (f : α → Except ε β) :
    ∀ (l : List α) (out : List β), exMap f l = Except.ok out →
      ∀ x ∈ l, ∃ y, f x = Except.ok y := by
  intro l
  induction l with
  | nil => simp
  | cons a as ih =>
    intro out h x hx
    cases hfa : f a with
    | error e => simp [exMap, hfa] at h
    | ok y =>
      cases hrec : exMap f as with
      | error e => simp [exMap, hfa, hrec] at h
      | ok ys =>
        rcases List.mem_cons.mp hx with rfl | hx
        · exact ⟨y, hfa⟩
        · exact ih ys hrec x hx

theorem exMap_pair_fst {α β ε : Type} (g : α → Except ε β) :
    ∀ (l : List α) (ps : List (α × β)),
      exMap (fun x => do
        let c ← g x
        Except.ok (x, c)) l = Except.ok ps →
      ps.map Prod.fst = l := by
  intro l
  induction l with
  | nil =>
    intro ps h
    simp [exMap] at h
    simp [← h]
  | cons a as ih =>
    intro ps h
    cases hga : g a with
    | error e => simp [exMap, hga] at h
    | ok c =>
      cases hrec : exMap (fun x => do
          let c ← g x
          Except.ok (x, c)) as with
      | error e => simp [exMap, hga, hrec] at h
      | ok ps' =>
        simp [exMap, hga, hrec] at h
        rw [← h]
        simp [ih ps' hrec]

theorem lookupCh_some_mem :
    ∀ (ch : List (Val × String)) (fg : Val) (s : String),
      lookupCh ch fg = some s → fg ∈ ch.map Prod.fst := by
  intro ch
  induction ch with
  | nil => simp [lookupCh]
  | cons p ps ih =>
    intro fg s h
    rw [lookupCh] at h
    by_cases hp : p.1 == fg
    · simp only [List.map_cons, List.mem_cons]
      exact Or.inl (eq_of_beq hp).symm
    · rw [if_neg (by simp [hp])] at h
      exact List.mem_cons_of_mem _ (ih fg s h)

theorem no_plus_takeWhile_digit (l : List Char) : '+' ∉ l.takeWhile Char.isDigit := by
  intro h
  exact absurd (List.mem_takeWhile_imp h) (by decide)

theorem no_plus_takeWhile_digitDot (l : List Char) : '+' ∉ l.takeWhile isDigitDot := by
  intro h
  exact absurd (List.mem_takeWhile_imp h) (by decide)

theorem expOne_no_plus :
    ∀ {cs c1 rest : List Char}, expOne cs = some (c1, rest) → '+' ∉ c1 := by
  intro cs c1 rest h
  unfold expOne at h
  split at h
  · split at h
    · exact absurd h (by simp)
    · rw [Option.some.injEq, Prod.mk.injEq] at h
      rw [← h.1]
      intro hm
      rcases List.mem_cons.mp hm with h' | h'
      · exact absurd h' (by decide)
      · rcases List.mem_cons.mp h' with h'' | h''
        · exact absurd h'' (by decide)
        · exact no_plus_takeWhile_digit _ h''
  · split at h
    · exact absurd h (by simp)
    · rw [Option.some.injEq, Prod.mk.injEq] at h
      rw [← h.1]
      intro hm
      rcases List.mem_cons.mp hm with h' | h'
      · exact absurd h' (by decide)
      · exact no_plus_takeWhile_digit _ h'
  · exact absurd h (by simp)

theorem expReps_no_plus :
    ∀ (fuel : Nat) {cs c1 rest : List Char},
      expReps fuel cs = some (c1, rest) → '+' ∉ c1 := by
  intro fuel
  induction fuel with
  | zero => intro cs c1 rest h; exact absurd h (by simp [expReps])
  | succ n ih =>
    intro cs c1 rest h
    rw [expReps] at h
    cases h1 : expOne cs with
    | none => rw [h1] at h; exact absurd h (by simp)
    | some p =>
      obtain ⟨c0, r0⟩ := p
      rw [h1] at h
      dsimp only at h
      cases h2 : expReps n r0 with
      | none =>
        rw [h2] at h
        simp only [Option.some.injEq, Prod.mk.injEq] at h
        rw [← h.1]
        exact expOne_no_plus h1
      | some q =>
        obtain ⟨c2, r2⟩ := q
        rw [h2] at h
        simp only [Option.some.injEq, Prod.mk.injEq] at h
        rw [← h.1]
        intro hm
        rcases List.mem_append.mp hm with h' | h'
        · exact expOne_no_plus h1 h'
        · exact ih h2 h'

theorem plusTail_shape :
    ∀ {cs t rest : List Char}, plusTail cs = some (t, rest) →
      ∃ b, t = '+' :: b ∧ '+' ∉ b := by
  intro cs t rest h
  unfold plusTail at h
  split at h
  · split at h
    · exact absurd h (by simp)
    · rw [Option.some.injEq, Prod.mk.injEq] at h
      refine ⟨_, h.1.symm, ?_⟩
      intro hm
      rcases List.mem_cons.mp hm with h' | h'
      · exact absurd h' (by decide)
      · exact no_plus_takeWhile_digit _ h'
  · split at h
    · exact absurd h (by simp)
    · rw [Option.some.injEq, Prod.mk.injEq] at h
      refine ⟨_, h.1.symm, ?_⟩
      exact no_plus_takeWhile_digit _
  · exact absurd h (by simp)

theorem scBody_shape :
    ∀ {sgn cs cap : List Char}, '+' ∉ sgn → scBody sgn cs = some cap →
      '+' ∉ cap ∨ ∃ a b, cap = a ++ '+' :: b ∧ '+' ∉ a ∧ '+' ∉ b := by
  intro sgn cs cap hsgn h
  unfold scBody at h
  split at h
  · exact absurd h (by simp)
  · split at h
    · exact absurd h (by simp)
    next ec rest hreps =>
      split at h
      next tc rest2 htail =>
        rw [Option.some.injEq] at h
        rcases plusTail_shape htail with ⟨b, rfl, hb⟩
        right
        refine ⟨sgn ++ cs.takeWhile isDigitDot ++ ec, b,
          by rw [← h, List.append_assoc, List.append_assoc], ?_, hb⟩
        intro hm
        rcases List.mem_append.mp hm with h' | h'
        · rcases List.mem_append.mp h' with h'' | h''
          · exact hsgn h''
          · exact no_plus_takeWhile_digitDot _ h''
        · exact expReps_no_plus _ hreps h'
      next htail =>
        rw [Option.some.injEq] at h
        left
        rw [← h]
        intro hm
        rcases List.mem_append.mp hm with h' | h'
        · rcases List.mem_append.mp h' with h'' | h''
          · exact hsgn h''
          · exact no_plus_takeWhile_digitDot _ h''
        · exact expReps_no_plus _ hreps h'

theorem scMatch_shape :
    ∀ {cs cap : List Char}, scMatch cs = some cap →
      '+' ∉ cap ∨ ∃ a b, cap = a ++ '+' :: b ∧ '+' ∉ a ∧ '+' ∉ b := by
  intro cs cap h
  unfold scMatch at h
  split at h
  · exact scBody_shape (by decide) h
  · exact scBody_shape (by simp) h

theorem groupMatch_shape :
    ∀ {cs cap : List Char}, groupMatch cs = some cap →
      '+' ∉ cap ∨ ∃ a b, cap = a ++ '+' :: b ∧ '+' ∉ a ∧ '+' ∉ b := by
  intro cs cap h
  unfold groupMatch at h
  split at h
  next cap' hsc =>
    rw [Option.some.injEq] at h
    rw [← h]
    exact scMatch_shape hsc
  next =>
    split at h
    · exact absurd h (by simp)
    · rw [Option.some.injEq] at h
      left
      rw [← h]
      exact no_plus_takeWhile_digit _

theorem findPos_shape :
    ∀ {cs cap : List Char}, findPos cs = some cap →
      '+' ∉ cap ∨ ∃ a b, cap = a ++ '+' :: b ∧ '+' ∉ a ∧ '+' ∉ b := by
  intro cs
  induction cs with
  | nil => intro cap h; exact absurd h (by simp [findPos])
  | cons c r ih =>
    intro cap h
    rw [findPos] at h
    cases hg : (posPrefixRest (c :: r)).bind groupMatch with
    | none => rw [hg] at h; exact ih h
    | some cap' =>
      rw [hg] at h
      rw [Option.some.injEq] at h
      rw [← h]
      rcases Option.bind_eq_some.mp hg with ⟨rest, _, hgm⟩
      exact groupMatch_shape hgm

theorem splitPlus_no_plus : ∀ {cs : List Char}, '+' ∉ cs → splitPlus cs = [cs] := by
  intro cs
  induction cs with
  | nil => intro _; rfl
  | cons c r ih =>
    intro h
    have hc : ¬c = '+' := fun hc => h (by rw [hc]; exact List.mem_cons_self _ _)
    rw [splitPlus, if_neg hc, ih (fun hm => h (List.mem_cons_of_mem _ hm))]

theorem splitPlus_split :
    ∀ {a b : List Char}, '+' ∉ a → '+' ∉ b → splitPlus (a ++ '+' :: b) = [a, b] := by
  intro a
  induction a with
  | nil =>
    intro b _ hb
    rw [List.nil_append, splitPlus, if_pos rfl, splitPlus_no_plus hb]
  | cons c r ih =>
    intro b ha hb
    have hc : ¬c = '+' := fun hc => ha (by rw [hc]; exact List.mem_cons_self _ _)
    rw [List.cons_append, splitPlus, if_neg hc,
      ih (fun hm => ha (List.mem_cons_of_mem _ hm)) hb]

theorem pivotFlag_ok_labels :
    ∀ {df : DF} {fluor : List String} {pv : PivotDF} {fl : List Val},
      getCol df "flag" = Except.ok fl →
      pivotFlag df fluor = Except.ok pv →
      pv.colLabels = fluor.flatMap (fun fn => (dedupFirst fl).map (fun fg => (fn, fg))) := by
  intro df fluor pv fl hfl h
  cases hu : getCol df "ucid" with
  | error e => simp [pivotFlag, hu] at h
  | ok ucids =>
    cases ht : getCol df "t_frame" with
    | error e => simp [pivotFlag, hu, ht] at h
    | ok tfs =>
      simp only [pivotFlag, hu, ht, hfl, bindOk] at h
      split at h
      · rw [Except.ok.injEq] at h
        rw [← h]
      · exact absurd h (by simp)

theorem buildChanels_ok_fst :
    ∀ {m : DF} {ch : List (Val × String)} {mfl : List Val},
      getCol m "flag" = Except.ok mfl →
      buildChanels m = Except.ok ch →
      ch.map Prod.fst = dedupFirst mfl := by
  intro m ch mfl hm h
  simp only [buildChanels, hm, bindOk] at h
  exact exMap_pair_fst _ _ _ h

theorem buildChanels_ok_decod :
    ∀ {m : DF} {ch : List (Val × String)} {mfl : List Val},
      getCol m "flag" = Except.ok mfl →
      buildChanels m = Except.ok ch →
      ∀ fg ∈ dedupFirst mfl, ∃ c, decodChanel m fg = Except.ok c := by
  intro m ch mfl hm h fg hfg
  simp only [buildChanels, hm, bindOk] at h
  rcases exMap_ok_mem _ _ _ h fg hfg with ⟨y, hy⟩
  cases hd : decodChanel m fg with
  | error e => rw [hd] at hy; simp at hy
  | ok c => exact ⟨c, rfl⟩

theorem makeColsChan_ok_parts :
    ∀ {df m : DF} {out : DF}, makeColsChan df m = Except.ok out →
      ∃ pv ch nn, pivotFlag df (fluorCols df) = Except.ok pv
        ∧ buildChanels m = Except.ok ch
        ∧ exMap (fun lab =>
            match lookupCh ch lab.2 with
            | some s => Except.ok (lab.1 ++ "_" ++ s)
            | none => Except.error (PyErr.keyError (valRepr lab.2))) pv.colLabels
          = Except.ok nn := by
  intro df m out h
  cases hpv : pivotFlag df (fluorCols df) with
  | error e => simp [makeColsChan, hpv] at h
  | ok pv =>
    cases hch : buildChanels m with
    | error e => simp [makeColsChan, hpv, hch] at h
    | ok ch =>
      cases hnn : exMap (fun lab =>
          match lookupCh ch lab.2 with
          | some s => Except.ok (lab.1 ++ "_" ++ s)
          | none => Except.error (PyErr.keyError (valRepr lab.2))) pv.colLabels with
      | error e => simp [makeColsChan, hpv, hch, hnn] at h
      | ok nn => exact ⟨pv, ch, nn, rfl, rfl, hnn⟩


theorem firstFluorFor_mem_flag :
    ∀ {m : DF} {fg v : Val} {mfl : List Val},
      getCol m "flag" = Except.ok mfl →
      firstFluorFor m fg = some v → fg ∈ mfl := by
  intro m fg v mfl hm hff
  unfold firstFluorFor at hff
  rw [hm] at hff
  cases hfluor : getCol m "fluor" with
  | error e => rw [hfluor] at hff; simp at hff
  | ok fluors =>
    rw [hfluor] at hff
    dsimp only at hff
    cases hl : (mfl.zip fluors).filter (fun p => p.1 == fg) with
    | nil => rw [hl] at hff; simp at hff
    | cons p ps =>
      have hp : p ∈ (mfl.zip fluors).filter (fun p => p.1 == fg) := by
        rw [hl]; exact List.mem_cons_self _ _
      have hzip := List.mem_filter.mp hp
      have := List.of_mem_zip hzip.1
      rw [← eq_of_beq hzip.2]
      exact this.1

theorem decod_of_firstFluor :
    ∀ {m : DF} {fg v : Val}, firstFluorFor m fg = some v →
      decodChanel m fg =
        (if pyFalsy v then Except.error (PyErr.valueError (notEncodedMsg fg m))
         else
           match v with
           | Val.str s =>
             match chanScan s.data with
             | none => Except.error PyErr.indexError
             | some g => Except.ok (lowerStr g)
           | _ => Except.error PyErr.typeError) := by
  intro m fg v hff
  unfold firstFluorFor at hff
  cases hfl : getCol m "flag" with
  | error e => rw [hfl] at hff; simp at hff
  | ok mfl =>
    cases hfluor : getCol m "fluor" with
    | error e => rw [hfl, hfluor] at hff; simp at hff
    | ok fluors =>
      rw [hfl, hfluor] at hff
      dsimp only at hff
      cases hl : ((mfl.zip fluors).filter (fun p => p.1 == fg)).map (fun p => p.2) with
      | nil => rw [hl] at hff; simp at hff
      | cons v0 vs =>
        rw [hl] at hff
        simp only [List.head?_cons, Option.some.injEq] at hff
        simp only [decodChanel, hfl, hfluor, bindOk, hl]
        rw [hff]

theorem makeColsChan_map_decod_error :
    ∀ {df m : DF} {fg : Val} {mfl : List Val} {e : PyErr},
      getCol m "flag" = Except.ok mfl → fg ∈ mfl →
      decodChanel m fg = Except.error e →
      ∀ out, makeColsChan df m ≠ Except.ok out := by
  intro df m fg mfl e hm hmem hd out heq
  rcases makeColsChan_ok_parts heq with ⟨pv, ch, nn, hpv, hch, hnn⟩
  rcases buildChanels_ok_decod hm hch fg ((mem_dedupFirst fg mfl).mpr hmem) with ⟨c, hc⟩
  rw [hd] at hc
  exact absurd hc (by simp)

theorem mergeLoop_short :
    ∀ (ds : List RawFile) (maps : List DF) (df : DF),
      maps.length < ds.length → ∀ out, mergeLoop df ds maps ≠ Except.ok out := by
  intro ds
  induction ds with
  | nil => intro maps df h; simp at h
  | cons d ds ih =>
    intro maps df h out heq
    rw [mergeLoop] at heq
    cases hmd : makeDf d.raw d.path with
    | error e => rw [hmd] at heq; simp at heq
    | ok dfi =>
      rw [hmd] at heq
      cases maps with
      | nil => simp [nextF] at heq
      | cons m ms =>
        simp only [nextF, bindOk] at heq
        cases hmc : makeColsChan dfi m with
        | error e => rw [hmc] at heq; simp at heq
        | ok dfi2 =>
          rw [hmc] at heq
          simp only [bindOk] at heq
          exact ih ms (pdConcat df dfi2)
            (Nat.lt_of_succ_lt_succ (by simpa using h)) out heq

/-! ## Claim theorems -/

/-- C1: the claim says the pipeline returns, for every accepted position,
a table whose `ucid` column equals `pos * 100_000_000_000 + cellID` with a
constant `pos` column.  Evaluating the pipeline at the failing input — a
raw table with headers `cellID`, `f_tot` and the path `pos1` — shows
`make_df` instead raises `KeyError("cellID")`: the `read_df` header
rewrite `replace(".", "_", regex=True)` has already turned every header
into underscores, so no table with a `ucid` column is ever returned. -/
theorem C1_ucid_pipeline_fails_keyerror :
    makeDf rawCellID "pos1" = Except.error (PyErr.keyError "cellID")
    ∧ readDf rawCellID = ⟨["______", "_____"], [[Val.int 1, Val.int 10]]⟩ := by
  exact ⟨rfl, rfl⟩

/-- C2: the claim says the reshaped table contains no `flag` column.
Evaluating `_make_cols_chan` on a well-formed two-flag table and a fully
decodable mapping shows the output column list does contain `flag`: the
name does not start with `f_`, so it is carried through the morphological
subset and never dropped. -/
theorem C2_flag_column_retained :
    Except.map DF.cols (makeColsChan dfTwoFlags mapBfYfp)
      = Except.ok ["pos", "t_frame", "ucid", "cellID", "flag", "f_tot_bf", "f_tot_yfp"]
    ∧ "flag" ∈ ["pos", "t_frame", "ucid", "cellID", "flag", "f_tot_bf", "f_tot_yfp"] := by
  exact ⟨by decide, by decide⟩

/-- C3: the claim says header normalization only trims whitespace and
replaces literal dots with underscores.  Because `replace` is called with
`regex=True`, the pattern `"."` matches every character: the header
`" x.pos "` becomes `"_____"`, not `"x_pos"`. -/
theorem C3_header_rewrite_replaces_every_char :
    normalizeHeader " x.pos " = "_____"
    ∧ normalizeHeader " x.pos " ≠ "x_pos"
    ∧ readDf ⟨[" x.pos "], []⟩ = ⟨["_____"], []⟩ := by
  exact ⟨rfl, by decide, rfl⟩

/-- C4, counterexample: the claim includes the spec's literal example
that a path containing `pos2.5e+3-100` is parsed by the offset-sum rule
(split at `+`, truncate, sum).  The grammar's exponent `e-?\d+` does not
admit `+` after `e`, so the scientific alternative fails and the capture
on this path is the plain digit run `2` — a literal with no `+` at all —
and the codec returns 2, not an offset sum. -/
theorem C4_literal_example_refuted :
    findPos "pos2.5e+3-100".data = some ['2']
    ∧ '+' ∉ ['2']
    ∧ extractPos "pos2.5e+3-100" = Except.ok 2 := by
  exact ⟨rfl, by decide, rfl⟩

/-- C7: the claim says the reshaper accepts tables without a `t_frame`
column (`t_frame` optional).  Evaluating `_make_cols_chan` on a table
lacking `t_frame` shows the hard-coded pivot index raises
`KeyError("t_frame")` — the commented-out conditional index at line 151
of `io.py` was never wired in. -/
theorem C7_t_frame_required :
    makeColsChan dfNoTFrame mapBfYfp = Except.error (PyErr.keyError "t_frame") := by
  exact rfl

/-- C10, counterexample: the claim says that whenever the metadata
pattern matches fewer files than the data pattern, `merge_tables` raises
an uncaught `StopIteration`.  With one data file and no metadata files
the per-file `make_df` call fails first — with `KeyError("cellID")`
(from the header-rewrite defect), not `StopIteration`. -/
theorem C10_keyerror_not_stopiteration :
    mergeTables true "experiment" [⟨rawCellID, "pos1"⟩] []
      = Except.error (PyErr.keyError "cellID")
    ∧ PyErr.keyError "cellID" ≠ PyErr.stopIteration := by
  exact ⟨rfl, by decide⟩

/-- C8: concatenating a per-file result table with itself via
`pd.concat(..., ignore_index=True)` doubles the row count and leaves the
column set unchanged: the column union of a table with itself adds
nothing. -/
theorem C8_concat_double_rows_same_cols (t : DF) :
    (pdConcat t t).rows.length = 2 * t.rows.length
    ∧ (pdConcat t t).cols = t.cols := by
  constructor
  · simp [pdConcat, two_mul]
  · show t.cols ++ t.cols.filter (fun c => !t.cols.contains c) = t.cols
    have hnil : t.cols.filter (fun c => !t.cols.contains c) = [] := by
      rw [List.filter_eq_nil_iff]
      intro a ha
      simp [List.elem_iff, ha]
    rw [hnil, List.append_nil]

/-- C4, amended: for every path whose matched position literal contains
`+`, the codec splits the literal at the `+` (the grammar guarantees
exactly one) and returns the sum of the two float-truncations; for every
path whose matched literal has no `+` it returns the single literal's
float-truncation; the offset-sum form is exemplified by `pos2.5e3+100`
(value 2600) — the spec's literal example `pos2.5e+3-100` is instead
matched as the plain integer literal `2`, because the exponent grammar
`e-?\d+` does not admit `+`. -/
theorem C4_offset_sum_amended :
    (∀ (p : String) (lit : List Char), findPos p.data = some lit → '+' ∈ lit →
      ∃ a b : List Char, splitPlus lit = [a, b]
        ∧ extractPos p = (do
            let x ← intFloat a
            let y ← intFloat b
            Except.ok (x + y)))
    ∧ (∀ (p : String) (lit : List Char), findPos p.data = some lit → '+' ∉ lit →
        extractPos p = intFloat lit)
    ∧ extractPos "pos2.5e3+100" = Except.ok 2600 := by
  refine ⟨?_, ?_, by decide⟩
  · intro p lit hf hmem
    rcases findPos_shape hf with hno | ⟨a, b, rfl, ha, hb⟩
    · exact absurd hmem hno
    · refine ⟨a, b, splitPlus_split ha hb, ?_⟩
      simp only [extractPos, hf]
      rw [if_pos hmem, splitPlus_split ha hb]
  · intro p lit hf hmem
    simp only [extractPos, hf]
    rw [if_neg hmem]

/-- Witness for C4: the offset-sum rule applied at the concrete path
`pos2.5e3+100`, whose literal `2.5e3+100` does contain `+`. -/
theorem C4_offset_sum_amended_witness :
    findPos "pos2.5e3+100".data = some "2.5e3+100".data
    ∧ '+' ∈ "2.5e3+100".data
    ∧ ∃ a b : List Char, splitPlus "2.5e3+100".data = [a, b]
        ∧ extractPos "pos2.5e3+100" = (do
            let x ← intFloat a
            let y ← intFloat b
            Except.ok (x + y)) :=
  ⟨by decide, by decide,
    C4_offset_sum_amended.1 "pos2.5e3+100" "2.5e3+100".data (by decide) (by decide)⟩

/-- C5: (a) whenever the data table's `flag` column holds a value that is
absent from the metadata table's `flag` column and the data table has at
least one fluorescence column, `_make_cols_chan` cannot succeed — the
channel lookup for that flag fails (a `KeyError` from `chanels[n[1]]`),
never a silent drop of the channel's columns; (b) whenever the descriptor
`_decod_chanel` reads for a flag is falsy (e.g. the empty string), it
raises the `ValueError` whose message names the flag and the metadata
table. -/
theorem C5_channel_not_encoded :
    (∀ (df m : DF) (f : Val) (fl mfl : List Val),
      getCol df "flag" = Except.ok fl → f ∈ fl →
      getCol m "flag" = Except.ok mfl → f ∉ mfl →
      fluorCols df ≠ [] →
      ∀ out, makeColsChan df m ≠ Except.ok out)
    ∧ (∀ (m : DF) (fg v : Val), firstFluorFor m fg = some v → pyFalsy v = true →
        decodChanel m fg = Except.error (PyErr.valueError (notEncodedMsg fg m))) := by
  constructor
  · intro df m f fl mfl hfl hf hmfl hnf hfluor out heq
    rcases makeColsChan_ok_parts heq with ⟨pv, ch, nn, hpv, hch, hnn⟩
    have hlab : pv.colLabels
        = (fluorCols df).flatMap (fun fn => (dedupFirst fl).map (fun fg => (fn, fg))) :=
      pivotFlag_ok_labels hfl hpv
    cases hfc : fluorCols df with
    | nil => exact hfluor hfc
    | cons fn fns =>
      have hmem : (fn, f) ∈ pv.colLabels := by
        rw [hlab, hfc]
        exact List.mem_flatMap.mpr ⟨fn, List.mem_cons_self _ _,
          List.mem_map.mpr ⟨f, (mem_dedupFirst f fl).mpr hf, rfl⟩⟩
      rcases exMap_ok_mem _ _ _ hnn (fn, f) hmem with ⟨y, hy⟩
      cases hlk : lookupCh ch (fn, f).2 with
      | none => rw [show ((fn, f) : String × Val).2 = f from rfl] at hlk; simp [hlk] at hy
      | some s =>
        have : f ∈ ch.map Prod.fst := lookupCh_some_mem ch f s hlk
        rw [buildChanels_ok_fst hmfl hch] at this
        exact hnf ((mem_dedupFirst f mfl).mp this)
  · intro m fg v hff hfalsy
    rw [decod_of_firstFluor hff, if_pos hfalsy]

/-- Witness for C5: flag 2 occurs in the data table but not in the
mapping, so reshaping fails; and the empty descriptor of flag 3 in
`mapEmptyFluor` makes the decoder raise the naming `ValueError`. -/
theorem C5_channel_not_encoded_witness :
    (getCol dfFlagTwo "flag" = Except.ok [Val.int 0, Val.int 2]
      ∧ Val.int 2 ∈ [Val.int 0, Val.int 2]
      ∧ getCol mapBfYfp "flag" = Except.ok [Val.int 0, Val.int 1]
      ∧ Val.int 2 ∉ [Val.int 0, Val.int 1]
      ∧ fluorCols dfFlagTwo ≠ []
      ∧ ∀ out, makeColsChan dfFlagTwo mapBfYfp ≠ Except.ok out)
    ∧ (firstFluorFor mapEmptyFluor (Val.int 3) = some (Val.str "")
      ∧ pyFalsy (Val.str "") = true
      ∧ decodChanel mapEmptyFluor (Val.int 3)
          = Except.error (PyErr.valueError (notEncodedMsg (Val.int 3) mapEmptyFluor))) :=
  ⟨⟨by decide, by decide, by decide, by decide, by decide,
    C5_channel_not_encoded.1 dfFlagTwo mapBfYfp (Val.int 2)
      [Val.int 0, Val.int 2] [Val.int 0, Val.int 1]
      (by decide) (by decide) (by decide) (by decide) (by decide)⟩,
   by decide, by decide,
   C5_channel_not_encoded.2 mapEmptyFluor (Val.int 3) (Val.str "")
     (by decide) (by decide)⟩

/-- C6: for every file path on which the position grammar finds no match,
`make_df` fails with the `FileNotFoundError` whose message names the
offending path; and when the first discovered data file has such a path,
the whole `merge_tables` call aborts with that same error — no partial
merged table is returned. -/
theorem C6_position_not_encoded :
    (∀ (raw : DF) (p : String), findPos p.data = none →
      makeDf raw p
        = Except.error (PyErr.fileNotFoundError (p ++ " does not encode valid position")))
    ∧ (∀ (raw : DF) (p root : String) (ds : List RawFile) (maps : List DF),
        findPos p.data = none →
        mergeTables true root (⟨raw, p⟩ :: ds) maps
          = Except.error (PyErr.fileNotFoundError (p ++ " does not encode valid position"))) := by
  have h1 : ∀ (raw : DF) (p : String), findPos p.data = none →
      makeDf raw p
        = Except.error (PyErr.fileNotFoundError (p ++ " does not encode valid position")) := by
    intro raw p h
    simp [makeDf, extractPos, h]
  refine ⟨h1, ?_⟩
  intro raw p root ds maps h
  simp [mergeTables, nextF, h1 raw p h]

/-- Witness for C6: the path `nofile.out` contains no position token, so
a merge whose first data file carries that path aborts with the named
`FileNotFoundError`. -/
theorem C6_position_not_encoded_witness :
    findPos "nofile.out".data = none
    ∧ mergeTables true "root" [⟨rawCellID, "nofile.out"⟩] [mapBfYfp]
        = Except.error
            (PyErr.fileNotFoundError ("nofile.out" ++ " does not encode valid position")) :=
  ⟨by decide,
    C6_position_not_encoded.2 rawCellID "nofile.out" "root" [] [mapBfYfp] (by decide)⟩

/-- C9: a metadata descriptor that is non-empty but matches `CHANNEL_REX`
nowhere (such as `cellID`) makes `_decod_chanel` fail with the
`IndexError` of `findall(...)[0]`; and because `_make_cols_chan` decodes
every flag of the metadata table up front, reshaping cannot succeed
against any data table once the metadata contains such an entry, whether
or not that flag carries fluorescence data. -/
theorem C9_nonchannel_descriptor :
    (∀ (m : DF) (fg : Val) (s : String),
      firstFluorFor m fg = some (Val.str s) → s.isEmpty = false →
      chanScan s.data = none →
      decodChanel m fg = Except.error PyErr.indexError)
    ∧ (∀ (df m : DF) (fg : Val) (s : String) (mfl : List Val),
      getCol m "flag" = Except.ok mfl →
      firstFluorFor m fg = some (Val.str s) → s.isEmpty = false →
      chanScan s.data = none →
      ∀ out, makeColsChan df m ≠ Except.ok out)
    ∧ chanScan "cellID".data = none := by
  have ha : ∀ (m : DF) (fg : Val) (s : String),
      firstFluorFor m fg = some (Val.str s) → s.isEmpty = false →
      chanScan s.data = none →
      decodChanel m fg = Except.error PyErr.indexError := by
    intro m fg s hff hs hscan
    rw [decod_of_firstFluor hff]
    rw [if_neg (by simp [pyFalsy, hs])]
    simp [hscan]
  refine ⟨ha, ?_, by decide⟩
  intro df m fg s mfl hm hff hs hscan
  exact makeColsChan_map_decod_error hm (firstFluorFor_mem_flag hm hff)
    (ha m fg s hff hs hscan)

/-- Witness for C9: the spec's own end-to-end mapping (`mapCellID`)
declares `flag = 0 -> fluor = "cellID"`; the decoder fails with
`IndexError` on flag 0 and reshaping the two-flag table against this
mapping cannot succeed. -/
theorem C9_nonchannel_descriptor_witness :
    (firstFluorFor mapCellID (Val.int 0) = some (Val.str "cellID")
      ∧ "cellID".isEmpty = false
      ∧ chanScan "cellID".data = none
      ∧ decodChanel mapCellID (Val.int 0) = Except.error PyErr.indexError)
    ∧ (getCol mapCellID "flag" = Except.ok [Val.int 0, Val.int 1]
      ∧ ∀ out, makeColsChan dfTwoFlags mapCellID ≠ Except.ok out) :=
  ⟨⟨by decide, by decide, by decide,
    C9_nonchannel_descriptor.1 mapCellID (Val.int 0) "cellID"
      (by decide) (by decide) (by decide)⟩,
   by decide,
   C9_nonchannel_descriptor.2.1 dfTwoFlags mapCellID (Val.int 0) "cellID"
     [Val.int 0, Val.int 1] (by decide) (by decide) (by decide) (by decide)⟩

/-- C10, amended: when the data pattern matches no file under an existing
root, `merge_tables` raises an uncaught `StopIteration` (from `next` on
the exhausted data generator), not one of the documented error classes;
when the metadata pattern matches fewer files than the data pattern, the
merge always aborts with an uncaught exception and never returns a table
— `StopIteration` when per-file processing reaches the exhausted
metadata generator, otherwise the per-file error raised first (with this
code base, `KeyError("cellID")` from the header-rewrite defect). -/
theorem C10_exhaustion_aborts :
    (∀ (root : String) (maps : List DF),
      mergeTables true root [] maps = Except.error PyErr.stopIteration)
    ∧ (∀ (root : String) (ds : List RawFile) (maps : List DF),
      maps.length < ds.length → ∀ out, mergeTables true root ds maps ≠ Except.ok out) := by
  constructor
  · intro root maps
    rfl
  · intro root ds maps h out heq
    cases ds with
    | nil => simp at h
    | cons d ds' =>
      simp only [mergeTables, Bool.not_true, Bool.false_eq_true, if_false, nextF,
        bindOk] at heq
      cases hmd : makeDf d.raw d.path with
      | error e => rw [hmd] at heq; simp at heq
      | ok df1 =>
        rw [hmd] at heq
        cases maps with
        | nil => simp [nextF] at heq
        | cons m ms =>
          simp only [nextF, bindOk] at heq
          cases hmc : makeColsChan df1 m with
          | error e => rw [hmc] at heq; simp at heq
          | ok df2 =>
            rw [hmc] at heq
            simp only [bindOk] at heq
            exact mergeLoop_short ds' ms df2
              (Nat.lt_of_succ_lt_succ (by simpa using h)) out heq

/-- Witness for C10: one data file and no metadata files — fewer metadata
files than data files — and the merge returns no table. -/
theorem C10_exhaustion_aborts_witness :
    ([] : List DF).length < [(⟨rawCellID, "pos1"⟩ : RawFile)].length
    ∧ ∀ out, mergeTables true "root" [⟨rawCellID, "pos1"⟩] [] ≠ Except.ok out :=
  ⟨by decide,
    C10_exhaustion_aborts.2 "root" [⟨rawCellID, "pos1"⟩] [] (by decide)⟩
